import Mathlib

/-!
Verification of the edit-history subsystem of the image editor
(`history_manager.py` and the slider edit-session of `app.py`).

Images are numpy arrays of 8-bit samples; the claims under study depend only
on buffer content equality, so a pixel buffer is embedded as a flat list of
naturals.  numpy's `.copy()` produces a new array with equal content; in a
value semantics a defensive copy is content-identity, kept explicit as
`Image.copy` so that the embedded operations mirror the Python text.
-/

abbrev Image := List Nat

/-- `img.copy()` in numpy: a fresh buffer with identical content. -/
def Image.copy (img : Image) : Image := img

@[simp] theorem Image.copy_eq (img : Image) : img.copy = img := rfl

/-- Embedding of `HistoryManager` (history_manager.py, lines 24-120):
a dataclass with `max_states` (Python int, default 25) and two list fields,
most-recent element last (Python `append`/`pop` act at the end,
`pop(0)` at the front). -/
structure HistoryManager where
  max_states : Int := 25
  undo_stack : List Image := []
  redo_stack : List Image := []
deriving DecidableEq, Repr

/-- `HistoryManager.__len__`: total number of stored states (undo + redo). -/
def HistoryManager.len (h : HistoryManager) : Nat :=
  h.undo_stack.length + h.redo_stack.length

/-- `HistoryManager.undo_count`. -/
def HistoryManager.undo_count (h : HistoryManager) : Nat :=
  h.undo_stack.length

/-- `HistoryManager.redo_count`. -/
def HistoryManager.redo_count (h : HistoryManager) : Nat :=
  h.redo_stack.length

/-- `HistoryManager.clear`: remove all saved states. -/
def HistoryManager.clear (h : HistoryManager) : HistoryManager :=
  { h with undo_stack := [], redo_stack := [] }

/-- `HistoryManager.can_undo`: `len(self._undo_stack) > 0`. -/
def HistoryManager.can_undo (h : HistoryManager) : Bool :=
  decide (0 < h.undo_stack.length)

/-- `HistoryManager.can_redo`: `len(self._redo_stack) > 0`. -/
def HistoryManager.can_redo (h : HistoryManager) : Bool :=
  decide (0 < h.redo_stack.length)

/-- `HistoryManager.push` (lines 72-85): append a copy of `img` to the undo
stack, clear the redo stack, then drop the oldest undo entry (`pop(0)`)
when the undo stack length exceeds `max_states`. -/
def HistoryManager.push (h : HistoryManager) (img : Image) : HistoryManager :=
  let pushed : HistoryManager :=
    { h with undo_stack := h.undo_stack ++ [img.copy], redo_stack := [] }
  if (pushed.undo_stack.length : Int) > h.max_states then
    { pushed with undo_stack := pushed.undo_stack.tail }
  else
    pushed

/-- `HistoryManager.undo` (lines 87-103): if nothing to undo return `None`;
otherwise append a copy of the current image to the redo stack and pop
(remove and return) the last element of the undo stack. -/
def HistoryManager.undo (h : HistoryManager) (current_img : Image) :
    Option Image × HistoryManager :=
  if h.can_undo then
    (h.undo_stack.getLast?,
     { h with undo_stack := h.undo_stack.dropLast,
              redo_stack := h.redo_stack ++ [current_img.copy] })
  else
    (none, h)

/-- `HistoryManager.redo` (lines 105-120): if nothing to redo return `None`;
otherwise append a copy of the current image to the undo stack and pop
the last element of the redo stack. -/
def HistoryManager.redo (h : HistoryManager) (current_img : Image) :
    Option Image × HistoryManager :=
  if h.can_redo then
    (h.redo_stack.getLast?,
     { h with undo_stack := h.undo_stack ++ [current_img.copy],
              redo_stack := h.redo_stack.dropLast })
  else
    (none, h)

/-- A whole sequence of `push` calls, first pushed first. -/
def HistoryManager.pushAll (h : HistoryManager) (imgs : List Image) :
    HistoryManager :=
  imgs.foldl HistoryManager.push h

/-- C5: for every `HistoryManager` state, including any non-empty redo
stack, `push` with any buffer empties the redo stack entirely, so
`can_redo()` returns false immediately after any push. -/
theorem push_clears_redo (h : HistoryManager) (img : Image) :
    (h.push img).redo_stack = [] ∧ (h.push img).can_redo = false := by
  unfold HistoryManager.push HistoryManager.can_redo
  dsimp only
  split <;> simp

/-- C6: for every state with a non-empty undo stack (written `u ++ [x]`) and
every current buffer `d`, `undo(d)` returns the top element `x`, removes it
from the undo stack, and appends a copy of `d` to the redo stack. -/
theorem undo_pops_and_stashes (h : HistoryManager) (u : List Image)
    (x d : Image) (hs : h.undo_stack = u ++ [x]) :
    (h.undo d).1 = some x ∧
    (h.undo d).2.undo_stack = u ∧
    (h.undo d).2.redo_stack = h.redo_stack ++ [d] := by
  unfold HistoryManager.undo HistoryManager.can_undo
  simp [hs]

/-- C6 witness: from `undoStack = [B, C]`, `redoStack = []`, `undo(D)`
returns `C` and leaves `undoStack = [B]`, `redoStack = [D]`
(with `B = [1]`, `C = [2]`, `D = [3]`). -/
theorem undo_pops_and_stashes_witness :
    (HistoryManager.undo ⟨25, [[1], [2]], []⟩ [3]).1 = some [2] ∧
    (HistoryManager.undo ⟨25, [[1], [2]], []⟩ [3]).2.undo_stack = [[1]] ∧
    (HistoryManager.undo ⟨25, [[1], [2]], []⟩ [3]).2.redo_stack = [[3]] := by
  have h := undo_pops_and_stashes ⟨25, [[1], [2]], []⟩ [[1]] [2] [3] rfl
  simpa using h

/-- C8: for every current buffer, `undo` on an empty undo stack returns
`None` and changes nothing, and `redo` on an empty redo stack returns
`None` and changes nothing. -/
theorem empty_stack_noops (h : HistoryManager) (cur : Image) :
    (h.undo_stack = [] → h.undo cur = (none, h)) ∧
    (h.redo_stack = [] → h.redo cur = (none, h)) := by
  constructor
  · intro hu
    unfold HistoryManager.undo HistoryManager.can_undo
    simp [hu]
  · intro hr
    unfold HistoryManager.redo HistoryManager.can_redo
    simp [hr]

/-- C8 witness: on a manager with both stacks empty, `undo` and `redo`
each return `None` and leave the state untouched. -/
theorem empty_stack_noops_witness :
    HistoryManager.undo ⟨25, [], []⟩ [7] = (none, ⟨25, [], []⟩) ∧
    HistoryManager.redo ⟨25, [], []⟩ [7] = (none, ⟨25, [], []⟩) :=
  ⟨(empty_stack_noops ⟨25, [], []⟩ [7]).1 rfl,
   (empty_stack_noops ⟨25, [], []⟩ [7]).2 rfl⟩

/-- C7: round-trip.  From any state whose undo stack is non-empty (written
`u ++ [x]`) and any current buffer `cur`, `undo(cur)` returns `x`, and
immediately redoing with that returned buffer yields `cur` bit-for-bit and
restores both stacks to their pre-undo contents. -/
theorem undo_redo_roundtrip (h : HistoryManager) (u : List Image)
    (x cur : Image) (hs : h.undo_stack = u ++ [x]) :
    (h.undo cur).1 = some x ∧
    ((h.undo cur).2.redo x).1 = some cur ∧
    ((h.undo cur).2.redo x).2.undo_stack = h.undo_stack ∧
    ((h.undo cur).2.redo x).2.redo_stack = h.redo_stack := by
  unfold HistoryManager.undo HistoryManager.redo HistoryManager.can_undo
    HistoryManager.can_redo
  simp [hs]

/-- C7 witness: with `undoStack = [[1], [2]]`, `redoStack = []` and current
buffer `[9]`, undo returns `[2]`, redoing it returns `[9]`, and the stacks
come back to `[[1], [2]]` and `[]`. -/
theorem undo_redo_roundtrip_witness :
    (HistoryManager.undo ⟨25, [[1], [2]], []⟩ [9]).1 = some [2] ∧
    ((HistoryManager.undo ⟨25, [[1], [2]], []⟩ [9]).2.redo [2]).1 = some [9] ∧
    ((HistoryManager.undo ⟨25, [[1], [2]], []⟩ [9]).2.redo [2]).2.undo_stack
      = [[1], [2]] ∧
    ((HistoryManager.undo ⟨25, [[1], [2]], []⟩ [9]).2.redo [2]).2.redo_stack
      = [] := by
  have h := undo_redo_roundtrip ⟨25, [[1], [2]], []⟩ [[1]] [2] [9] rfl
  simpa using h

/-- Helper for C4: pushing onto a manager whose undo stack `s` is within
capacity leaves exactly the suffix of the pushed material that fits.
Stated with an arbitrary in-capacity starting stack so the induction on the
pushed list goes through. -/
theorem pushAll_undo_stack (imgs : List Image) :
    ∀ (s r : List Image) (c : Int), 0 < c → (s.length : Int) ≤ c →
    (HistoryManager.pushAll ⟨c, s, r⟩ imgs).undo_stack
      = (s ++ imgs).drop (s.length + imgs.length - c.toNat) := by
  induction imgs with
  | nil =>
    intro s r c hc hs
    have hz : s.length - c.toNat = 0 := by omega
    simp [HistoryManager.pushAll, hz]
  | cons a imgs ih =>
    intro s r c hc hs
    have hstep : HistoryManager.pushAll ⟨c, s, r⟩ (a :: imgs)
        = HistoryManager.pushAll (HistoryManager.push ⟨c, s, r⟩ a) imgs := rfl
    have hsa : ((s ++ [a]).length : Int) = (s.length : Int) + 1 := by
      simp
    rw [hstep]
    by_cases hlt : ((s ++ [a.copy]).length : Int) > c
    · -- eviction case: the stack was exactly at capacity, the oldest entry
      -- is dropped before the remaining pushes happen
      have hlen : s.length = c.toNat := by
        rw [Image.copy_eq, hsa] at hlt
        omega
      have hpos : 0 < s.length := by omega
      obtain ⟨y, t, hyt⟩ : ∃ y t, s = y :: t := by
        cases s with
        | nil => simp at hpos
        | cons y t => exact ⟨y, t, rfl⟩
      have hst : s.length = t.length + 1 := by rw [hyt]; rfl
      have hpush : HistoryManager.push ⟨c, s, r⟩ a
          = ⟨c, t ++ [a], []⟩ := by
        unfold HistoryManager.push
        dsimp only
        rw [if_pos hlt]
        simp [hyt]
      rw [hpush]
      have hlen2 : (((t ++ [a]).length : Nat) : Int) ≤ c := by
        have : (t ++ [a]).length = t.length + 1 := by simp
        rw [this]
        omega
      rw [ih (t ++ [a]) [] c hc hlen2]
      have h1 : (t ++ [a]).length + imgs.length - c.toNat = imgs.length := by
        have : (t ++ [a]).length = t.length + 1 := by simp
        omega
      have h2 : s.length + (a :: imgs).length - c.toNat = imgs.length + 1 := by
        have : (a :: imgs).length = imgs.length + 1 := rfl
        omega
      rw [h1, h2, hyt]
      simp
    · -- no eviction: the new entry simply extends the stack
      have hpush : HistoryManager.push ⟨c, s, r⟩ a
          = ⟨c, s ++ [a], []⟩ := by
        unfold HistoryManager.push
        dsimp only
        rw [if_neg hlt]
        simp
      rw [hpush]
      have hlen2 : (((s ++ [a]).length : Nat) : Int) ≤ c := by
        rw [Image.copy_eq, hsa] at hlt
        rw [hsa]
        omega
      rw [ih (s ++ [a]) [] c hc hlen2]
      have h1 : (s ++ [a]).length + imgs.length - c.toNat
          = s.length + (a :: imgs).length - c.toNat := by
        have ha : (s ++ [a]).length = s.length + 1 := by simp
        have hb : (a :: imgs).length = imgs.length + 1 := rfl
        omega
      rw [h1]
      simp

/-- Helper for C4/C10: any sequence of pushes starting from an empty redo
stack leaves the redo stack empty. -/
theorem pushAll_redo_stack (imgs : List Image) :
    ∀ (h : HistoryManager), h.redo_stack = [] →
    (HistoryManager.pushAll h imgs).redo_stack = [] := by
  induction imgs with
  | nil => intro h hr; simpa [HistoryManager.pushAll] using hr
  | cons a imgs ih =>
    intro h hr
    have hstep : HistoryManager.pushAll h (a :: imgs)
        = HistoryManager.pushAll (h.push a) imgs := rfl
    rw [hstep]
    apply ih
    unfold HistoryManager.push
    dsimp only
    split <;> rfl

/-- C4: pushing any sequence `imgs` of `n` buffers onto a fresh manager with
capacity `c > 0` leaves an undo stack that never exceeds `c`, equals the
suffix of `imgs` of length `min n c` (most recent `min n c` pushes in push
order, oldest evicted first), and an empty redo stack. -/
theorem push_capacity_bound (c : Int) (hc : 0 < c) (imgs : List Image) :
    ((HistoryManager.pushAll ⟨c, [], []⟩ imgs).undo_stack.length : Int) ≤ c ∧
    (HistoryManager.pushAll ⟨c, [], []⟩ imgs).undo_stack
      = imgs.drop (imgs.length - c.toNat) ∧
    (HistoryManager.pushAll ⟨c, [], []⟩ imgs).redo_stack = [] := by
  have hu := pushAll_undo_stack imgs [] [] c hc (by simpa using hc.le)
  simp only [List.nil_append, List.length_nil, Nat.zero_add] at hu
  refine ⟨?_, hu, pushAll_redo_stack imgs _ rfl⟩
  rw [hu]
  simp only [List.length_drop]
  omega

/-- C4 witness: capacity 2, push `A = [0]`, `B = [1]`, `C = [2]` leaves
`undoStack = [B, C]` (A evicted) and `redoStack = []`. -/
theorem push_capacity_bound_witness :
    (HistoryManager.pushAll ⟨2, [], []⟩ [[0], [1], [2]]).undo_stack
      = [[1], [2]] ∧
    (HistoryManager.pushAll ⟨2, [], []⟩ [[0], [1], [2]]).redo_stack = [] := by
  have h := push_capacity_bound 2 (by decide) [[0], [1], [2]]
  exact ⟨h.2.1.trans (by decide), h.2.2⟩

/-- The four mutating operations of `HistoryManager`, as a syntax of events
for stating sequence invariants. -/
inductive HistOp where
  | push (img : Image)
  | undo (cur : Image)
  | redo (cur : Image)
  | clear
deriving Repr

/-- Run one operation against a manager (the buffer returned by
`undo`/`redo` is irrelevant to the stored-state count and is dropped). -/
def applyOp (h : HistoryManager) : HistOp → HistoryManager
  | .push img => h.push img
  | .undo cur => (h.undo cur).2
  | .redo cur => (h.redo cur).2
  | .clear => h.clear

/-- Run a whole sequence of operations, first operation first. -/
def applyOps (h : HistoryManager) (ops : List HistOp) : HistoryManager :=
  ops.foldl applyOp h

/-- `push` never changes the capacity field. -/
theorem push_max_states (h : HistoryManager) (img : Image) :
    (h.push img).max_states = h.max_states := by
  unfold HistoryManager.push
  dsimp only
  split <;> rfl

/-- `undo` never changes the capacity field. -/
theorem undo_max_states (h : HistoryManager) (cur : Image) :
    (h.undo cur).2.max_states = h.max_states := by
  unfold HistoryManager.undo
  split <;> rfl

/-- `redo` never changes the capacity field. -/
theorem redo_max_states (h : HistoryManager) (cur : Image) :
    (h.redo cur).2.max_states = h.max_states := by
  unfold HistoryManager.redo
  split <;> rfl

/-- `push` keeps the total stored-state count within `max_states` whenever
it was within `max_states` before. -/
theorem push_len_bounded (h : HistoryManager) (img : Image)
    (hl : (h.len : Int) ≤ h.max_states) :
    ((h.push img).len : Int) ≤ h.max_states := by
  unfold HistoryManager.len at hl ⊢
  unfold HistoryManager.push
  dsimp only
  split
  · rename_i hgt
    have ht : (h.undo_stack ++ [img.copy]).tail.length
        = h.undo_stack.length := by
      simp [List.length_tail]
    simp only [ht, List.length_nil, Nat.add_zero]
    omega
  · rename_i hle
    simp only [not_lt, List.length_append, List.length_singleton,
      Nat.cast_add, Nat.cast_one] at hle
    simp only [List.length_append, List.length_singleton, List.length_nil,
      Nat.add_zero]
    push_cast
    omega

/-- `undo` moves one entry between the stacks (or does nothing), so the
total stored-state count is unchanged. -/
theorem undo_len_eq (h : HistoryManager) (cur : Image) :
    (h.undo cur).2.len = h.len := by
  unfold HistoryManager.undo HistoryManager.can_undo HistoryManager.len
  split
  · rename_i hcan
    simp only [decide_eq_true_eq] at hcan
    simp only [List.length_dropLast, List.length_append,
      List.length_singleton]
    omega
  · rfl

/-- `redo` moves one entry between the stacks (or does nothing), so the
total stored-state count is unchanged. -/
theorem redo_len_eq (h : HistoryManager) (cur : Image) :
    (h.redo cur).2.len = h.len := by
  unfold HistoryManager.redo HistoryManager.can_redo HistoryManager.len
  split
  · rename_i hcan
    simp only [decide_eq_true_eq] at hcan
    simp only [List.length_dropLast, List.length_append,
      List.length_singleton]
    omega
  · rfl

/-- Helper for C10: one operation keeps the total stored-state count within
`max_states` and never changes `max_states` itself. -/
theorem applyOp_len_bounded (h : HistoryManager) (op : HistOp)
    (hc : 0 < h.max_states) (hl : (h.len : Int) ≤ h.max_states) :
    ((applyOp h op).len : Int) ≤ h.max_states ∧
    (applyOp h op).max_states = h.max_states := by
  cases op with
  | push img => exact ⟨push_len_bounded h img hl, push_max_states h img⟩
  | undo cur =>
    refine ⟨?_, undo_max_states h cur⟩
    have he : (applyOp h (HistOp.undo cur)).len = h.len := undo_len_eq h cur
    rw [he]
    exact hl
  | redo cur =>
    refine ⟨?_, redo_max_states h cur⟩
    have he : (applyOp h (HistOp.redo cur)).len = h.len := redo_len_eq h cur
    rw [he]
    exact hl
  | clear =>
    have he : (applyOp h HistOp.clear).len = 0 := rfl
    refine ⟨?_, rfl⟩
    rw [he]
    omega

/-- Helper for C10: the one-step bound extended to whole sequences. -/
theorem applyOps_len_bounded (ops : List HistOp) :
    ∀ (h : HistoryManager), 0 < h.max_states → (h.len : Int) ≤ h.max_states →
    ((applyOps h ops).len : Int) ≤ h.max_states ∧
    (applyOps h ops).max_states = h.max_states := by
  induction ops with
  | nil => intro h hc hl; exact ⟨hl, rfl⟩
  | cons op ops ih =>
    intro h hc hl
    have hstep : applyOps h (op :: ops) = applyOps (applyOp h op) ops := rfl
    have h1 := applyOp_len_bounded h op hc hl
    have h2 := ih (applyOp h op) (h1.2 ▸ hc) (h1.2 ▸ h1.1)
    rw [hstep]
    exact ⟨h1.2 ▸ h2.1, (h2.2.trans h1.2)⟩

/-- C10: starting from a fresh (or cleared) manager with `max_states = c > 0`
and empty stacks, after every sequence of `push`, `undo`, `redo` and `clear`
operations the total stored-state count `len(undo) + len(redo)` (the value
of `__len__`) never exceeds `c`. -/
theorem history_len_bounded (c : Int) (hc : 0 < c) (ops : List HistOp) :
    ((applyOps ⟨c, [], []⟩ ops).len : Int) ≤ c := by
  have h := applyOps_len_bounded ops ⟨c, [], []⟩ hc
    (by simpa [HistoryManager.len] using hc.le)
  exact h.1

/-- C10 witness: capacity 2 and a mixed concrete operation sequence keep the
total stored-state count at or below 2. -/
theorem history_len_bounded_witness :
    ((applyOps ⟨2, [], []⟩
        [.push [0], .push [1], .push [2], .undo [3], .redo [4],
         .undo [5], .push [6], .clear, .push [7]]).len : Int) ≤ 2 :=
  history_len_bounded 2 (by decide)
    [.push [0], .push [1], .push [2], .undo [3], .redo [4],
     .undo [5], .push [6], .clear, .push [7]]

/-- The three continuous-control transforms of `ImageProcessor`
(image_processor.py) that the slider session dispatches to.  Their pixel
kernels are OpenCV calls — the external, out-of-scope ImageOps collaborator —
so they are embedded as abstract pure functions from a buffer and an integer
control value to a new buffer; the session claims depend only on WHICH
buffer each transform is applied to, never on its pixel arithmetic. -/
structure ImageProcessor where
  blur : Image → Int → Image
  adjust_brightness : Image → Int → Image
  adjust_contrast : Image → Int → Image

/-- Embedding of the slider-session state of `ImageEditorApp` (app.py):
the fields touched by `_start_slider_edit`, `_preview_slider_effect` and
`_commit_slider_edit`.  Defaults mirror `__init__` (app.py, lines 67-93);
purely presentational state (canvas, labels, status bar, `info`) is
re-derived from these fields and carries no session information. -/
structure App where
  processor : ImageProcessor
  history : HistoryManager := { max_states := 25 }
  current_image : Option Image := none
  active_slider : Option String := none
  slider_base_image : Option Image := none
  blur_var : Int := 0
  bright_var : Int := 0
  contrast_var : Int := 100
  is_modified : Bool := false
  last_action : String := "Ready"

/-- `_require_image` (app.py, lines 610-615): true iff an image is loaded
(the warning dialog is presentation-only). -/
def App.require_image (a : App) : Bool :=
  a.current_image.isSome

/-- `_start_slider_edit` (app.py, lines 421-431): if no image is loaded,
return unchanged; otherwise record the control id and capture a copy of the
current image as the session base. -/
def App.start_slider_edit (a : App) (slider_name : String) : App :=
  match a.current_image with
  | none => a
  | some img =>
    { a with active_slider := some slider_name,
             slider_base_image := some img.copy }

/-- `_preview_slider_effect` (app.py, lines 433-459): return unchanged
unless an image, a captured base and an active control all exist; then
dispatch on the active control id, computing the preview from the captured
base and the control's live value, and adopt the preview as the current
image. -/
def App.preview_slider_effect (a : App) : App :=
  match a.current_image, a.slider_base_image, a.active_slider with
  | some _, some base, some name =>
    if name = "blur" then
      { a with current_image := some (a.processor.blur base a.blur_var),
               is_modified := true,
               last_action := "Adjusting " ++ name }
    else if name = "brightness" then
      { a with current_image :=
                 some (a.processor.adjust_brightness base a.bright_var),
               is_modified := true,
               last_action := "Adjusting " ++ name }
    else if name = "contrast" then
      { a with current_image :=
                 some (a.processor.adjust_contrast base a.contrast_var),
               is_modified := true,
               last_action := "Adjusting " ++ name }
    else a
  | _, _, _ => a

/-- `_commit_slider_edit` (app.py, lines 461-479): if no base was captured,
just clear the active control id; otherwise push the captured base onto the
history as the single undo entry for the drag, then clear the session. -/
def App.commit_slider_edit (a : App) : App :=
  match a.slider_base_image with
  | none => { a with active_slider := none }
  | some base =>
    { a with history := a.history.push base,
             slider_base_image := none,
             active_slider := none }

/-- One slider-move event: the three control variables take new values and
the trace callback `_on_slider_value_change` fires `_preview_slider_effect`
(label refresh is presentation-only). -/
structure SliderVals where
  blur : Int
  bright : Int
  contrast : Int

/-- Write new slider values into the control variables. -/
def App.set_vals (a : App) (v : SliderVals) : App :=
  { a with blur_var := v.blur, bright_var := v.bright,
           contrast_var := v.contrast }

/-- A drag of `ps.length` slider-move events: each sets the control
variables and previews. -/
def App.dragSteps (a : App) (ps : List SliderVals) : App :=
  ps.foldl (fun s v => (s.set_vals v).preview_slider_effect) a

/-- Helper: `_preview_slider_effect` never touches the session bookkeeping
(captured base, active control id), the history or the processor. -/
theorem preview_preserves_session (a : App) :
    (a.preview_slider_effect).slider_base_image = a.slider_base_image ∧
    (a.preview_slider_effect).active_slider = a.active_slider ∧
    (a.preview_slider_effect).history = a.history ∧
    (a.preview_slider_effect).processor = a.processor := by
  unfold App.preview_slider_effect
  split
  · split
    · exact ⟨rfl, rfl, rfl, rfl⟩
    · split
      · exact ⟨rfl, rfl, rfl, rfl⟩
      · split <;> exact ⟨rfl, rfl, rfl, rfl⟩
  · exact ⟨rfl, rfl, rfl, rfl⟩

/-- Helper: a whole drag (any number of slider-move events) never touches
the captured base, the active control id or the history. -/
theorem dragSteps_preserves_session (ps : List SliderVals) :
    ∀ (a : App),
    (a.dragSteps ps).slider_base_image = a.slider_base_image ∧
    (a.dragSteps ps).active_slider = a.active_slider ∧
    (a.dragSteps ps).history = a.history := by
  induction ps with
  | nil => intro a; exact ⟨rfl, rfl, rfl⟩
  | cons v ps ih =>
    intro a
    have hstep : a.dragSteps (v :: ps)
        = ((a.set_vals v).preview_slider_effect).dragSteps ps := rfl
    rw [hstep]
    have h1 := preview_preserves_session (a.set_vals v)
    have h2 := ih ((a.set_vals v).preview_slider_effect)
    exact ⟨h2.1.trans h1.1, h2.2.1.trans h1.2.1, h2.2.2.trans h1.2.2.1⟩

/-- C9: with no active session (no control id and no captured base), a
preview event leaves the whole state unchanged and a commit event leaves
the whole state unchanged — in particular nothing is pushed onto the
history and the session stays idle; both are no-ops, not errors. -/
theorem idle_preview_commit_noop (a : App) (h1 : a.active_slider = none)
    (h2 : a.slider_base_image = none) :
    a.preview_slider_effect = a ∧ a.commit_slider_edit = a := by
  constructor
  · unfold App.preview_slider_effect
    split
    · simp_all
    · rfl
  · unfold App.commit_slider_edit
    split
    · rw [← h1]
    · simp_all

/-- Concrete instantiation of the external ImageOps collaborator, used only
to evaluate witnesses: each transform is some arbitrary pure function with
visibly distinct outputs. -/
def sampleProcessor : ImageProcessor where
  blur := fun b k => b.map (fun v => v + k.toNat)
  adjust_brightness := fun b v => b.map (fun p => p + 2 * v.toNat)
  adjust_contrast := fun b v => b.map (fun p => p * v.toNat)

/-- A concrete app with an image loaded and no active session. -/
def idleApp : App :=
  { processor := sampleProcessor, current_image := some [5] }

/-- A concrete app in the middle of a blur drag: active control `"blur"`,
captured base `[0]`, current (previewed) image `[5]`. -/
def draggingApp : App :=
  { processor := sampleProcessor, current_image := some [5],
    active_slider := some "blur", slider_base_image := some [0] }

/-- C9 witness: on a concrete idle app with an image loaded, preview and
commit are both exact no-ops. -/
theorem idle_preview_commit_noop_witness :
    idleApp.preview_slider_effect = idleApp ∧
    idleApp.commit_slider_edit = idleApp :=
  idle_preview_commit_noop idleApp rfl rfl

/-- C1 counterexample: from a concrete state with an active session
(control `"blur"`, captured base `[0]`), calling `_start_slider_edit`
with a second control id is neither rejected nor a no-op: the active
control id and the captured base buffer are both replaced. -/
theorem begin_overwrite_counterexample :
    draggingApp.active_slider = some "blur" ∧
    draggingApp.slider_base_image = some [0] ∧
    (draggingApp.start_slider_edit "contrast").active_slider
      = some "contrast" ∧
    (draggingApp.start_slider_edit "contrast").slider_base_image
      = some [5] ∧
    (draggingApp.start_slider_edit "contrast").active_slider
      ≠ draggingApp.active_slider ∧
    (draggingApp.start_slider_edit "contrast").slider_base_image
      ≠ draggingApp.slider_base_image := by
  refine ⟨rfl, rfl, rfl, rfl, ?_, ?_⟩ <;> decide

/-- C1 amended: when an image is loaded, `_start_slider_edit` always
(re)activates the session with the new control id and re-captures the base
buffer from the current image — even if a session is already active, the
second call silently replaces the first session's control id and base
(history and current image are untouched). -/
theorem begin_replaces_session (a : App) (img : Image) (name : String)
    (hc : a.current_image = some img) :
    (a.start_slider_edit name).active_slider = some name ∧
    (a.start_slider_edit name).slider_base_image = some img ∧
    (a.start_slider_edit name).current_image = a.current_image ∧
    (a.start_slider_edit name).history = a.history := by
  unfold App.start_slider_edit
  simp [hc]

/-- C1 amended witness: the concrete mid-drag state, second begin with
`"contrast"`. -/
theorem begin_replaces_session_witness :
    (draggingApp.start_slider_edit "contrast").active_slider
      = some "contrast" ∧
    (draggingApp.start_slider_edit "contrast").slider_base_image
      = some [5] ∧
    (draggingApp.start_slider_edit "contrast").current_image
      = draggingApp.current_image ∧
    (draggingApp.start_slider_edit "contrast").history
      = draggingApp.history :=
  begin_replaces_session draggingApp [5] "contrast" rfl

/-- C2: with an active session whose captured base is `b0`, two successive
preview events with control values `p1` then `p2` leave the displayed image
equal to the transform of `b0` at `p2` — computed from the captured base,
not from the first preview's output — for each of the three continuous
controls. -/
theorem preview_from_base (a : App) (b0 img : Image) (p1 p2 : Int)
    (hb : a.slider_base_image = some b0) (hc : a.current_image = some img) :
    (a.active_slider = some "blur" →
      (({ ({ a with blur_var := p1 }).preview_slider_effect
            with blur_var := p2 }).preview_slider_effect).current_image
        = some (a.processor.blur b0 p2)) ∧
    (a.active_slider = some "brightness" →
      (({ ({ a with bright_var := p1 }).preview_slider_effect
            with bright_var := p2 }).preview_slider_effect).current_image
        = some (a.processor.adjust_brightness b0 p2)) ∧
    (a.active_slider = some "contrast" →
      (({ ({ a with contrast_var := p1 }).preview_slider_effect
            with contrast_var := p2 }).preview_slider_effect).current_image
        = some (a.processor.adjust_contrast b0 p2)) := by
  refine ⟨?_, ?_, ?_⟩ <;> intro ha <;>
    simp [App.preview_slider_effect, hb, hc, ha]

/-- C2 witness: on the concrete mid-drag blur state, previewing at value 3
then at value 9 displays `blur(base, 9)`; with the concrete sample
transform, previewing from the first preview's output would instead give a
different buffer, so the non-accumulation distinction is real. -/
theorem preview_from_base_witness :
    (({ ({ draggingApp with blur_var := 3 }).preview_slider_effect
          with blur_var := 9 }).preview_slider_effect).current_image
      = some (draggingApp.processor.blur [0] 9) ∧
    draggingApp.processor.blur [0] 9
      ≠ draggingApp.processor.blur (draggingApp.processor.blur [0] 3) 9 :=
  ⟨(preview_from_base draggingApp [0] [5] 3 9 rfl rfl).1 rfl, by decide⟩

/-- C3: beginning a session on current image `img`, dragging through any
number of preview events, then committing once applies exactly one
`push(img)` to the pre-session history (one new undo entry whose content is
the captured base) and deactivates the session: base discarded, control id
cleared. -/
theorem commit_single_push (a : App) (img : Image) (name : String)
    (ps : List SliderVals) (hc : a.current_image = some img) :
    (((a.start_slider_edit name).dragSteps ps).commit_slider_edit).history
      = a.history.push img ∧
    (((a.start_slider_edit name).dragSteps ps).commit_slider_edit).active_slider
      = none ∧
    (((a.start_slider_edit name).dragSteps ps).commit_slider_edit).slider_base_image
      = none := by
  have hstart : (a.start_slider_edit name).slider_base_image = some img ∧
      (a.start_slider_edit name).history = a.history := by
    unfold App.start_slider_edit
    simp [hc]
  have hd := dragSteps_preserves_session ps (a.start_slider_edit name)
  have hsbi : ((a.start_slider_edit name).dragSteps ps).slider_base_image
      = some img := hd.1.trans hstart.1
  have hhist : ((a.start_slider_edit name).dragSteps ps).history
      = a.history := hd.2.2.trans hstart.2
  refine ⟨?_, ?_, ?_⟩ <;> simp [App.commit_slider_edit, hsbi, hhist]

/-- C3 witness: from the concrete idle app with current image `[5]`,
begin a blur session, drag through two preview events, commit: the history
gains exactly the single entry `[5]` and the session is idle again. -/
theorem commit_single_push_witness :
    (((idleApp.start_slider_edit "blur").dragSteps
        [⟨3, 0, 100⟩, ⟨9, 0, 100⟩]).commit_slider_edit).history
      = idleApp.history.push [5] ∧
    (((idleApp.start_slider_edit "blur").dragSteps
        [⟨3, 0, 100⟩, ⟨9, 0, 100⟩]).commit_slider_edit).active_slider
      = none ∧
    (((idleApp.start_slider_edit "blur").dragSteps
        [⟨3, 0, 100⟩, ⟨9, 0, 100⟩]).commit_slider_edit).slider_base_image
      = none :=
  commit_single_push idleApp [5] "blur" [⟨3, 0, 100⟩, ⟨9, 0, 100⟩] rfl
